import Mathlib

/-!
Verification of the message normalization and reply-threading engine of
PyMailAI against its natural-language specification.

The Python source (src/pymailai) is shallowly embedded: strings are
`List Char` (`Str`), Python string primitives (`split`, `strip`,
`splitlines`, ...) are transcribed as executable Lean functions, the
`EmailData` dataclass becomes a structure, and the MIME message objects of
the Python `email` library become an inductive tree of parts plus a record
of headers.  External library calls whose output never matters for the
claims (markdown→HTML conversion, HTML→text conversion, date parsing and
formatting) are taken as function parameters and universally quantified.
-/

/-- Python strings are modelled as lists of characters. -/
abbrev Str := List Char

/-- Coercion from Lean string literals to the model's string type. -/
def str (s : String) : Str := s.data

/-- The set of characters Python's `str.strip()` (with no argument) removes:
whitespace.  We model the ASCII whitespace characters plus the common
Unicode ones; only membership/non-membership of `'\n'`, `' '` and `'>'`
matters for the proofs. -/
def pySpace (c : Char) : Bool :=
  c = ' ' || c = '\t' || c = '\n' || c = '\r' || c = '\x0b' || c = '\x0c' ||
  c = '\x1c' || c = '\x1d' || c = '\x1e' || c = '\x1f' || c = '\x85' || c = ' '

/-- Python `s.strip()`: drop whitespace from both ends. -/
def pyStrip (s : Str) : Str :=
  ((s.dropWhile pySpace).reverse.dropWhile pySpace).reverse

/-- Python `s.rstrip()`: drop whitespace from the right end. -/
def pyRstrip (s : Str) : Str :=
  (s.reverse.dropWhile pySpace).reverse

/-- Python `s.split(sep)` for a one-character separator `c`:
`"".split(",") = [""]`, separators at the ends produce empty pieces. -/
def splitChar (c : Char) : Str → List Str
  | [] => [[]]
  | d :: s =>
    if d = c then [] :: splitChar c s
    else
      match splitChar c s with
      | [] => [[d]]
      | r :: rs => (d :: r) :: rs

/-- Helper for `pySplitWs`: accumulate the current token. -/
def pySplitWsGo (acc : Str) : Str → List Str
  | [] => if acc = [] then [] else [acc]
  | c :: s =>
    if pySpace c then
      if acc = [] then pySplitWsGo [] s else acc :: pySplitWsGo [] s
    else pySplitWsGo (acc ++ [c]) s

/-- Python `s.split()` with no argument: split on whitespace runs, never
producing empty tokens (`"".split() = []`). -/
def pySplitWs (s : Str) : List Str := pySplitWsGo [] s

/-- Python `sep.join(parts)`. -/
def joinSep (sep : Str) : List Str → Str
  | [] => []
  | [x] => x
  | x :: xs => x ++ sep ++ joinSep sep xs

/-- Python `"\n".join(parts)`. -/
def joinNL : List Str → Str := joinSep ['\n']

/-- Python `s.startswith(p)`. -/
def pyStartsWith (p s : Str) : Bool := p.isPrefixOf s

/-- Python `sub in s` (substring containment). -/
def pyContains : Str → Str → Bool
  | s, sub =>
    if sub.isPrefixOf s then true
    else match s with
      | [] => false
      | _ :: t => pyContains t sub

/-! ## email_validator.py -/

namespace EmailValidator

/-- Transcribes `EmailValidator.validate_email`: Python `re.match` of the pattern
`[^@]+@[^@]+\.[^@]+` against the start of the string.  Since the character
class excludes only `@`, a match exists iff the string starts with a
non-empty `@`-free block, then `@`, and the maximal `@`-free block after the
`@` contains a `.` that is neither its first nor its last character. -/
def validate_email (s : Str) : Bool :=
  let a := s.takeWhile (fun c => c ≠ '@')
  let rest := s.drop (a.length + 1)
  let b := rest.takeWhile (fun c => c ≠ '@')
  decide (a ≠ []) && decide (a.length < s.length) &&
    ((b.drop 1).dropLast.contains '.')

/-- Transcribes `EmailValidator.validate_addresses`: all non-empty entries validate. -/
def validate_addresses (addrs : List Str) : Bool :=
  (addrs.filter (fun a => a ≠ [])).all validate_email

end EmailValidator

/-! ## message.py — the EmailData dataclass -/

/-- One attachment dictionary: `{"filename", "content_type", "payload"}`. -/
structure Attachment where
  filename : Option Str
  contentType : Str
  payload : Str
  deriving Repr, DecidableEq

/-- The `EmailData` dataclass after `__post_init__` has run: `references`
is materialized as a list, `attachments` is a list.  Timestamps are opaque
integers (datetime values are never inspected by the claims; formatting
and parsing of dates are passed in as functions). -/
structure EmailData where
  message_id : Str
  subject : Str
  from_address : Str
  to_addresses : List Str
  cc_addresses : List Str
  body_text : Str
  body_html : Option Str
  timestamp : Int
  references : List Str
  in_reply_to : Option Str
  attachments : List Attachment
  deriving Repr, DecidableEq

/-- The shapes the `references` constructor argument can take in Python
(`Optional[Union[List[str], str]]` annotated, but any object can arrive).
`other` carries the text Python's `type(...)` would print. -/
inductive RefInput where
  | noneV : RefInput
  | strV : Str → RefInput
  | listV : List Str → RefInput
  | otherV : Str → RefInput
  deriving Repr, DecidableEq

/-- Transcribes the normalization of the `references` field performed by
the method named post-init of `EmailData`:
`None ↦ []`, a string is whitespace-split (empty/blank string ↦ `[]`),
a list is kept, anything else raises `ValueError`. -/
def normalizeReferences : RefInput → Except Str (List Str)
  | .noneV => .ok []
  | .strV s =>
    .ok (if pyStrip s ≠ [] then (pySplitWs s).map pyStrip else [])
  | .listV l => .ok l
  | .otherV ty =>
    .error (str "References must be None, string, or list, not " ++ ty)

/-- Constructing an `EmailData` (the dataclass constructor followed by
`__post_init__`): `attachments=None` becomes `[]`, `references` is
normalized, and a bad `references` type is the only construction error. -/
def mkEmailData (message_id subject from_address : Str)
    (to_addresses cc_addresses : List Str) (body_text : Str)
    (body_html : Option Str) (timestamp : Int)
    (references : RefInput := .noneV) (in_reply_to : Option Str := none)
    (attachments : Option (List Attachment) := none) :
    Except Str EmailData := do
  let refs ← normalizeReferences references
  .ok {
    message_id := message_id
    subject := subject
    from_address := from_address
    to_addresses := to_addresses
    cc_addresses := cc_addresses
    body_text := body_text
    body_html := body_html
    timestamp := timestamp
    references := refs
    in_reply_to := in_reply_to
    attachments := attachments.getD [] }

/-! ## message.py — `_format_quoted_text` -/

/-- Python `str.splitlines()` (without keepends), restricted to the line
terminators `\n`, `\r`, `\r\n`, `\x0b`, `\x0c`, `\x1c`, `\x1d`, `\x1e`,
`\x85` (the ones representable here). -/
def strLineBreak (c : Char) : Bool :=
  c = '\n' || c = '\r' || c = '\x0b' || c = '\x0c' || c = '\x1c' ||
  c = '\x1d' || c = '\x1e' || c = '\x85'

/-- Helper for `pySplitlinesStr`. -/
def pySplitlinesStrGo (acc : Str) : Str → List Str
  | [] => if acc = [] then [] else [acc]
  | '\r' :: '\n' :: s => acc :: pySplitlinesStrGo [] s
  | c :: s =>
    if strLineBreak c then acc :: pySplitlinesStrGo [] s
    else pySplitlinesStrGo (acc ++ [c]) s

/-- Python `str.splitlines()`. -/
def pySplitlinesStr (s : Str) : List Str := pySplitlinesStrGo [] s

/-- The per-line processing loop of `EmailData._format_quoted_text`.  The
Boolean argument is `true` while the inner `while` loop of the Python code
is consuming an embedded quote block (lines starting with `>` or blank). -/
def formatQuotedLines (prefixStr : Str) : Bool → List Str → List Str
  | _, [] => []
  | false, l :: rest =>
    if pyStartsWith (str "On ") l &&
        (match rest with | r :: _ => pyStartsWith (str ">") r | [] => false) then
      (prefixStr ++ [' '] ++ l) :: formatQuotedLines prefixStr true rest
    else
      (if pyStrip l ≠ [] then prefixStr ++ [' '] ++ l else prefixStr) ::
        formatQuotedLines prefixStr false rest
  | true, l :: rest =>
    if pyStartsWith (str ">") l then
      (prefixStr ++ l) :: formatQuotedLines prefixStr true rest
    else if pyStrip l = [] then
      prefixStr :: formatQuotedLines prefixStr true rest
    else
      -- the inner while loop exits; the outer loop re-examines this line
      if pyStartsWith (str "On ") l &&
          (match rest with | r :: _ => pyStartsWith (str ">") r | [] => false) then
        (prefixStr ++ [' '] ++ l) :: formatQuotedLines prefixStr true rest
      else
        (if pyStrip l ≠ [] then prefixStr ++ [' '] ++ l else prefixStr) ::
          formatQuotedLines prefixStr false rest

/-- Transcribes `EmailData._format_quoted_text(text, level)`.  Here `fmtDate` stands for
`self.timestamp.strftime("%b %d, %Y, at %I:%M %p")`. -/
def formatQuotedText (fmtDate : Int → Str) (e : EmailData)
    (text : Str) (level : Nat) : Str :=
  let dateStr := fmtDate e.timestamp
  let attrLine :=
    str "On " ++ dateStr ++ str ", " ++ e.from_address ++ str " wrote:"
  let prefixStr := List.replicate level '>'
  let quotedLines := formatQuotedLines prefixStr false (pySplitlinesStr text)
  attrLine ++ ['\n'] ++ prefixStr ++ ['\n'] ++ joinNL quotedLines

/-! ## message.py — `create_reply` -/

/-- Transcribes `EmailData.create_reply(reply_text, include_history, quote_level)`.
After `__post_init__` the `references` field is always a list, so the
`isinstance(self.references, str)` branch of the source collapses to the
list branch (`[] if None else copy`).  `now` stands for `datetime.now()`
and `fmtDate` for `strftime` in the quoted attribution line. -/
def createReply (fmtDate : Int → Str) (now : Int) (e : EmailData)
    (reply_text : Str) (include_history : Bool := true)
    (quote_level : Nat := 1) : EmailData :=
  let new_references :=
    e.references ++ (if e.message_id ≠ [] then [e.message_id] else [])
  let body_text :=
    if include_history then
      reply_text ++ ['\n', '\n'] ++ formatQuotedText fmtDate e e.body_text quote_level
    else reply_text
  { message_id := []
    subject :=
      if ¬ pyStartsWith (str "Re: ") e.subject then str "Re: " ++ e.subject
      else e.subject
    from_address := []
    to_addresses := [e.from_address]
    cc_addresses := e.cc_addresses
    body_text := body_text
    body_html := none
    timestamp := now
    references := new_references
    in_reply_to := some e.message_id
    attachments := [] }

/-! ## The MIME message model (Python `email.message.EmailMessage`)

A message part is either a leaf carrying a decoded payload or a multipart
container.  Only the attributes the embedded code reads are modelled:
content type, the `Content-Disposition` header value (`""` when absent),
the filename, and the decoded payload. -/

/-- A node of the MIME part tree. -/
inductive Mime where
  | leaf (contentType : Str) (disposition : Str)
      (filename : Option Str) (payload : Str)
  | multi (contentType : Str) (parts : List Mime)

/-- Python `EmailMessage.is_multipart()`. -/
def Mime.isMultipart : Mime → Bool
  | .leaf _ _ _ _ => false
  | .multi _ _ => true

mutual
/-- Python `EmailMessage.walk()`: the part itself, then (for containers) every
subpart's walk, in document order. -/
def Mime.walk : Mime → List Mime
  | .leaf ct d f p => [.leaf ct d f p]
  | .multi ct ps => .multi ct ps :: Mime.walkAll ps

/-- The `walk` traversal mapped over a list of subparts. -/
def Mime.walkAll : List Mime → List Mime
  | [] => []
  | m :: ms => m.walk ++ Mime.walkAll ms
end

/-- The top-level message: the headers the embedded code touches, plus the
content tree.  A header that was never set is `none`. -/
structure Msg where
  messageId : Option Str := none
  subject : Option Str := none
  fromAddr : Option Str := none
  toHdr : Option Str := none
  ccHdr : Option Str := none
  dateHdr : Option Str := none
  referencesHdr : Option Str := none
  inReplyToHdr : Option Str := none
  content : Mime

/-! ## message.py — `to_email_message` -/

/-- Line terminators recognized by Python `bytes.splitlines()`:
`\n`, `\r`, `\r\n` only. -/
def pySplitlinesBGo (acc : Str) : Str → List Str
  | [] => if acc = [] then [] else [acc]
  | '\r' :: '\n' :: s => acc :: pySplitlinesBGo [] s
  | c :: s =>
    if c = '\n' || c = '\r' then acc :: pySplitlinesBGo [] s
    else pySplitlinesBGo (acc ++ [c]) s

/-- Python `bytes.splitlines()` (without keepends). -/
def pySplitlinesB (s : Str) : List Str := pySplitlinesBGo [] s

/-- The payload that `EmailMessage.set_content`/`add_alternative` store for
a text body: `email.contentmanager._encode_text` splits the text into
lines with `bytes.splitlines` and rejoins them with `\n`, appending a
final `\n` (so the stored payload always ends in a newline and `\r`/`\r\n`
terminators are normalized to `\n`). -/
def encodeText (s : Str) : Str := joinNL (pySplitlinesB s) ++ ['\n']

/-- Python truthiness of `Optional[str]`: `None` and `""` are falsy. -/
def optStrTruthy : Option Str → Bool
  | none => false
  | some s => s ≠ []

/-- The markdown trigger set of `to_email_message`:
`any(marker in self.body_text for marker in ["```", "#", "**", "__", ">", "-"])`. -/
def hasMarkdownMarker (body : Str) : Bool :=
  [str "```", str "#", str "**", str "__", str ">", str "-"].any
    (fun marker => pyContains body marker)

/-- Models `email.policy.EmailPolicy.header_store_parse` of `policy.default`
(the policy of `EmailMessage()`): setting a header whose value contains a
linefeed or carriage return raises `ValueError`; otherwise the value is
handed to the header registry for parsing. -/
def storeHeader (v : Str) : Except Str Str :=
  if '\n' ∈ v ∨ '\r' ∈ v then
    .error (str "Header values may not contain linefeed or carriage return characters")
  else .ok v

/-- Transcribes `EmailData.to_email_message()`.  Here `mdConvert` stands for
`MarkdownConverter().convert` (an external library call).  Headers are not
stored verbatim by the Python `email` library: `policy.default` rejects
CR/LF in a header value (`storeHeader`, a concrete check) and otherwise
parses the value into a structured header whose later fetch re-serializes
it (RFC 2047 encoded-word decoding for unstructured headers; comment
stripping and spacing normalization for address headers).  That
store-then-fetch round is modelled by two function parameters: `uRT` for
unstructured headers (Subject, In-Reply-To, References) and `aRT` for
address headers (From, To, Cc).  Headers are set in the source's order
(Subject, From, To, Cc, In-Reply-To, References), so the first offending
value raises. -/
def toEmailMessage (mdConvert uRT aRT : Str → Str) (e : EmailData) :
    Except Str Msg := do
  let subjV ← storeHeader e.subject
  let fromV ← storeHeader e.from_address
  let toV ← storeHeader (joinSep (str ", ") e.to_addresses)
  let ccV ← (if e.cc_addresses ≠ [] then
      (storeHeader (joinSep (str ", ") e.cc_addresses)).map some
    else pure none)
  let irtV ← (if optStrTruthy e.in_reply_to then
      (storeHeader ((e.in_reply_to).getD [])).map some
    else pure none)
  let refV ← (if e.references ≠ [] then
      (storeHeader (joinSep (str " ") e.references)).map some
    else pure none)
  let html_content : Option Str :=
    if ¬ optStrTruthy e.body_html ∧ hasMarkdownMarker e.body_text then
      some (mdConvert e.body_text)
    else e.body_html
  let contentPart : Mime :=
    if optStrTruthy html_content then
      .multi (str "multipart/alternative")
        [.leaf (str "text/plain") [] none (encodeText e.body_text),
         .leaf (str "text/html") [] none (encodeText (html_content.getD []))]
    else .leaf (str "text/plain") [] none (encodeText e.body_text)
  let content : Mime :=
    if e.attachments ≠ [] then
      .multi (str "multipart/mixed")
        (contentPart :: e.attachments.map (fun a =>
          .leaf a.contentType (str "attachment") a.filename a.payload))
    else contentPart
  .ok { subject := some (uRT subjV)
        fromAddr := some (aRT fromV)
        toHdr := some (aRT toV)
        ccHdr := ccV.map aRT
        inReplyToHdr := irtV.map uRT
        referencesHdr := refV.map uRT
        content := content }

/-! ## message.py — `from_email_message` -/

/-- The classification test shared by both part walkers:
`"attachment" in disposition or content_type.startswith("image/")`. -/
def isAttachmentPart (contentType disposition : Str) : Bool :=
  pyContains disposition (str "attachment") ||
    pyStartsWith (str "image/") contentType

/-- Loop state of the part-collection pass of `from_email_message`:
collected text parts, the current `body_html` value, and attachments. -/
structure FemState where
  textParts : List Str
  bodyHtml : Option Str
  attachments : List Attachment

/-- One iteration of the `for part in msg.walk()` loop of
`from_email_message`: multiparts are skipped; an attachment-classified
leaf is appended to `attachments`; a `text/plain` payload is appended to
the text parts; a `text/html` payload overwrites `body_html`. -/
def femStep (st : FemState) (part : Mime) : FemState :=
  match part with
  | .multi _ _ => st
  | .leaf ct disp fn pl =>
    if isAttachmentPart ct disp then
      { st with attachments := st.attachments ++ [⟨fn, ct, pl⟩] }
    else if ct = str "text/plain" then
      { st with textParts := st.textParts ++ [pl] }
    else if ct = str "text/html" then
      { st with bodyHtml := some pl }
    else st

/-- Python `[addr.strip() for addr in (hdr or "").split(",") if addr]`. -/
def parseAddressHeader (hdr : Option Str) : List Str :=
  ((splitChar ',' (hdr.getD [])).filter (fun a => a ≠ [])).map pyStrip

/-- The body-part filter `part for part in body_text_parts if part.strip()`
followed by `"\n".join(...)`. -/
def combineParts (parts : List Str) : Str :=
  joinNL (parts.filter (fun p => pyStrip p ≠ []))

/-- Transcribes `EmailData.from_email_message(msg)`.  Here `parseDate` stands for the
`mktime_tz/parsedate_tz` pipeline with its fall-back to the current time
(`_get_valid_date_tuple`); it never fails.  The resulting `references`
argument is always a list, so `__post_init__` accepts it unchanged. -/
def femContentState : Mime → FemState
  | .multi ct ps => (Mime.walk (.multi ct ps)).foldl femStep ⟨[], none, []⟩
  | .leaf _ _ _ pl => ⟨[pl], none, []⟩

def fromEmailMessage (parseDate : Option Str → Int) (m : Msg) : EmailData :=
  let st : FemState := femContentState m.content
  { message_id := (m.messageId).getD []
    subject := (m.subject).getD []
    from_address := (m.fromAddr).getD []
    to_addresses := parseAddressHeader m.toHdr
    cc_addresses := parseAddressHeader m.ccHdr
    body_text := combineParts st.textParts
    body_html := st.bodyHtml
    timestamp := parseDate m.dateHdr
    references := (pySplitWs ((m.referencesHdr).getD [])).map pyStrip
    in_reply_to := m.inReplyToHdr
    attachments := st.attachments }

/-! ## text_processor.py -/

namespace TextProcessor

/-- The line loop of `TextProcessor.process_text_with_quotes`: `ct` and
`cq` are the `current_text` and `current_quote` accumulators, and the
returned list is `parts` in append order (including the two trailing
flushes after the loop). -/
def partsLoop : List Str → List Str → List Str → List Str
  | [], ct, cq =>
    (if ct ≠ [] then [joinNL ct] else []) ++ (if cq ≠ [] then [joinNL cq] else [])
  | l :: ls, ct, cq =>
    if pyStartsWith (str ">") l then
      if ct ≠ [] then joinNL ct :: partsLoop ls [] (cq ++ [l])
      else partsLoop ls ct (cq ++ [l])
    else
      if cq ≠ [] then joinNL cq :: partsLoop ls (ct ++ [l]) []
      else partsLoop ls (ct ++ [l]) cq

/-- Transcribes `TextProcessor.process_text_with_quotes(content)`. -/
def process_text_with_quotes (content : Str) : Str :=
  let lines := splitChar '\n' content
  let parts := partsLoop lines [] []
  joinNL (parts.filter (fun p => pyStrip p ≠ []))

/-- Transcribes `TextProcessor.combine_text_parts(parts)`. -/
def combine_text_parts (parts : List Str) : Str :=
  joinNL (parts.filter (fun p => pyStrip p ≠ []))

end TextProcessor

/-! ## email_processor.py -/

namespace EmailProcessor

/-- Loop state of the first pass of `process_message_parts`: `text_parts`,
`html_parts` and `attachments`, all in append order. -/
structure EpState where
  textParts : List Str
  htmlParts : List Str
  attachments : List Attachment

/-- One iteration of the collection loop of `process_message_parts`. -/
def epStep (st : EpState) (part : Mime) : EpState :=
  match part with
  | .multi _ _ => st
  | .leaf ct disp fn pl =>
    if isAttachmentPart ct disp then
      { st with attachments := st.attachments ++ [⟨fn, ct, pl⟩] }
    else if ct = str "text/plain" then
      { st with textParts := st.textParts ++ [pl] }
    else if ct = str "text/html" then
      { st with htmlParts := st.htmlParts ++ [pl] }
    else st

/-- Transcribes `EmailProcessor.process_message_parts(msg)`, returning
`(body_text, body_html, attachments)`.  `htmlToText` stands for
`HtmlConverter.convert_html_to_text` (an external, BeautifulSoup-based
call). -/
def process_message_parts (htmlToText : Str → Str) (m : Msg) :
    Str × Option Str × List Attachment :=
  match m.content with
  | .multi ct ps =>
    let st := (Mime.walk (.multi ct ps)).foldl epStep ⟨[], [], []⟩
    let bodyTextParts :=
      if st.textParts ≠ [] then st.textParts
      else match st.htmlParts with
        | h :: _ => [htmlToText h]
        | [] => []
    let bodyHtml := st.htmlParts.head?
    (TextProcessor.combine_text_parts bodyTextParts, bodyHtml, st.attachments)
  | .leaf ct _ _ pl =>
    if ct = str "text/html" then
      (TextProcessor.combine_text_parts [htmlToText pl], some pl, [])
    else
      (TextProcessor.combine_text_parts
        [TextProcessor.process_text_with_quotes pl], none, [])

end EmailProcessor

/-! ## Concrete fixtures used by the claim theorems -/

/-- A concrete received message (message id `"m1"`, empty `references`),
as in the reply-chaining scenario of the spec. -/
def sampleMsg1 : EmailData :=
  { message_id := str "m1"
    subject := str "Hello"
    from_address := str "alice@example.com"
    to_addresses := [str "bot@example.com"]
    cc_addresses := []
    body_text := str "First message"
    body_html := none
    timestamp := 0
    references := []
    in_reply_to := none
    attachments := [] }

/-- The message of the repository's own `test_reply_no_recipients` test:
`to_addresses` is empty. -/
def noRecipientsMsg : EmailData :=
  { message_id := str "test-id"
    subject := str "Test"
    from_address := str "from@example.com"
    to_addresses := []
    cc_addresses := []
    body_text := str "Test message"
    body_html := none
    timestamp := 0
    references := []
    in_reply_to := none
    attachments := [] }

/-! ## Specification views of the part walk (for C7/C8) -/

/-- The payload of a part that the walkers treat as an HTML body candidate:
a leaf that is not attachment-classified and declares `text/html`. -/
def htmlCandidate : Mime → Option Str
  | .leaf ct disp _ pl =>
    if ¬ isAttachmentPart ct disp ∧ ct = str "text/html" then some pl else none
  | .multi _ _ => none

/-- The HTML body candidates of a part list, in document order. -/
def htmlCandidates (parts : List Mime) : List Str :=
  parts.filterMap htmlCandidate

/-- The attachment a part contributes, if attachment-classified. -/
def attachOf : Mime → Option Attachment
  | .leaf ct disp fn pl =>
    if isAttachmentPart ct disp then some ⟨fn, ct, pl⟩ else none
  | .multi _ _ => none

/-- The attachments of a part list, in document order. -/
def attachSpec (parts : List Mime) : List Attachment :=
  parts.filterMap attachOf
/-- A multipart message with two `text/html` leaves (payloads `H1`, `H2`). -/
def twoHtmlMsg : Msg :=
  { content := .multi (str "multipart/alternative")
      [.leaf (str "text/html") [] none (str "H1"),
       .leaf (str "text/html") [] none (str "H2")] }
/-- The attachment produced by the `image/jpeg` leaf of `c8msg`. -/
def c8att : Attachment :=
  { filename := some (str "photo.jpg")
    contentType := str "image/jpeg"
    payload := str "IMG" }

/-- The spec's attachment-classification scenario: one `text/plain` leaf,
one `text/html` leaf, and one `image/jpeg` leaf whose
`Content-Disposition` is the parameter (`"inline"` in the spec). -/
def c8msg (disp : Str) : Msg :=
  { content := .multi (str "multipart/mixed")
      [.leaf (str "text/plain") [] none (str "T"),
       .leaf (str "text/html") [] none (str "H"),
       .leaf (str "image/jpeg") disp (some (str "photo.jpg")) (str "IMG")] }
def addrOk (a : Str) : Prop := a ≠ [] ∧ ',' ∉ a ∧ pyStrip a = a

instance (a : Str) : Decidable (addrOk a) := by
  unfold addrOk
  infer_instance

/-- A header value that `policy.default` accepts: no linefeed or carriage
return (otherwise `header_store_parse` raises `ValueError`). -/
def hdrOk (v : Str) : Prop := '\n' ∉ v ∧ '\r' ∉ v

instance (v : Str) : Decidable (hdrOk v) := by
  unfold hdrOk
  infer_instance

def ensureNL (s : Str) : Str :=
  if s.getLast? = some '\n' then s else s ++ ['\n']
def commaMsg : EmailData :=
  { message_id := [], subject := str "Hi", from_address := str "a@x.com"
    to_addresses := [str "a@x.com, b@x.com"], cc_addresses := []
    body_text := str "Hello", body_html := none, timestamp := 0
    references := [], in_reply_to := none, attachments := [] }

def crMsg : EmailData :=
  { message_id := [], subject := str "Hi", from_address := str "a@x.com"
    to_addresses := [str "b@x.com"], cc_addresses := []
    body_text := str "a\rb", body_html := none, timestamp := 0
    references := [], in_reply_to := none, attachments := [] }
def roundtripMsg : EmailData :=
  { message_id := str "mid", subject := str "Hi"
    from_address := str "a@x.com"
    to_addresses := [str "b@x.com", str "c@x.com"]
    cc_addresses := [str "d@x.com"]
    body_text := str "Hello\nWorld", body_html := none, timestamp := 0
    references := [], in_reply_to := none, attachments := [] }

/-! ## Proof-side definitions for C6 -/

/-- The quote test of the text-processor loop. -/
def isQ (l : Str) : Bool := pyStartsWith (str ">") l
/-- The maximal homogeneous runs of `isQ` over a line list. -/
def runs : List Str → List (List Str)
  | [] => []
  | l :: ls =>
    (l :: ls.takeWhile (fun x => isQ x == isQ l)) ::
      runs (ls.dropWhile (fun x => isQ x == isQ l))
termination_by ls => ls.length
decreasing_by
  simp only [List.length_cons]
  exact Nat.lt_succ_of_le (List.dropWhile_sublist _).length_le
/-- The lines kept by one pass of the text processor: flatten of the
non-blank maximal runs. -/
def gLines (ls : List Str) : List Str :=
  ((runs ls).filter (fun r => pyStrip (joinNL r) ≠ [])).flatten

/-! ## Claim theorems -/

/-- C1: the claim (and the repository's own test `test_reply_no_recipients`)
say that `create_reply` on a message with `to_addresses=[]` raises a hard
error.  The code has no such check: on exactly the test's input it returns
a normal reply (addressed to the original sender) instead of raising. -/
theorem c1_create_reply_no_recipients_returns_reply
    (fmtDate : Int → Str) (now : Int) :
    (createReply fmtDate now noRecipientsMsg (str "Reply text")).to_addresses =
        [str "from@example.com"] ∧
      (createReply fmtDate now noRecipientsMsg (str "Reply text")).subject =
        str "Re: Test" := by
  exact ⟨rfl, rfl⟩

/-- C2 counterexample: constructing an `EmailData` whose `from_address`
and `to_addresses` entry both fail `EmailValidator.validate_email`
succeeds; no `ValidationFailure` is raised.  `__post_init__` never invokes
any address validation. -/
theorem c2_invalid_address_construction_succeeds :
    EmailValidator.validate_email (str "not-an-email") = false ∧
    EmailValidator.validate_addresses [str "also bad"] = false ∧
    str "not-an-email" ≠ [] ∧
    mkEmailData (str "id") (str "S") (str "not-an-email") [str "also bad"] []
        (str "b") none 0 =
      .ok { message_id := str "id", subject := str "S"
            from_address := str "not-an-email"
            to_addresses := [str "also bad"], cc_addresses := []
            body_text := str "b", body_html := none, timestamp := 0
            references := [], in_reply_to := none, attachments := [] } :=
  ⟨by decide, by decide, by decide, rfl⟩

/-- C2 amended: `EmailData` construction performs no address-syntax
validation at all — whenever the `references` argument normalizes, the
construction succeeds with the addresses stored verbatim, whatever their
syntax.  (`EmailValidator` exists in the repository but is never invoked
by the constructor.) -/
theorem c2_construction_ignores_address_syntax
    (mid subj fa : Str) (toa cc : List Str) (bt : Str) (bh : Option Str)
    (ts : Int) (refs : RefInput) (irt : Option Str)
    (att : Option (List Attachment)) (l : List Str)
    (h : normalizeReferences refs = .ok l) :
    mkEmailData mid subj fa toa cc bt bh ts refs irt att =
      .ok { message_id := mid, subject := subj, from_address := fa
            to_addresses := toa, cc_addresses := cc
            body_text := bt, body_html := bh, timestamp := ts
            references := l, in_reply_to := irt
            attachments := att.getD [] } := by
  simp only [mkEmailData, h]; rfl

/-- Witness for `c2_construction_ignores_address_syntax` at a concrete
structurally invalid address. -/
theorem c2_construction_ignores_address_syntax_witness :
    normalizeReferences .noneV = .ok [] ∧
    mkEmailData (str "id") (str "S") (str "not-an-email") [] [] (str "b")
        none 0 .noneV none none =
      .ok { message_id := str "id", subject := str "S"
            from_address := str "not-an-email"
            to_addresses := [], cc_addresses := []
            body_text := str "b", body_html := none, timestamp := 0
            references := [], in_reply_to := none, attachments := [] } :=
  ⟨rfl, c2_construction_ignores_address_syntax (str "id") (str "S")
    (str "not-an-email") [] [] (str "b") none 0 .noneV none none [] rfl⟩

/-- C3: `references` normalization at construction, for every value of the
other constructor arguments: the string `"<a> <b>"` yields
`["<a>","<b>"]`, the list `["<a>"]` is kept, the empty string and `None`
yield `[]`, and any other type is the `ValueError` construction error. -/
theorem c3_references_normalization
    (mid subj fa : Str) (toa cc : List Str) (bt : Str) (bh : Option Str)
    (ts : Int) (irt : Option Str) (att : Option (List Attachment))
    (ty : Str) :
    (mkEmailData mid subj fa toa cc bt bh ts (.strV (str "<a> <b>")) irt
        att).map EmailData.references = .ok [str "<a>", str "<b>"] ∧
    (mkEmailData mid subj fa toa cc bt bh ts (.listV [str "<a>"]) irt
        att).map EmailData.references = .ok [str "<a>"] ∧
    (mkEmailData mid subj fa toa cc bt bh ts (.strV (str "")) irt
        att).map EmailData.references = .ok [] ∧
    (mkEmailData mid subj fa toa cc bt bh ts .noneV irt
        att).map EmailData.references = .ok [] ∧
    mkEmailData mid subj fa toa cc bt bh ts (.otherV ty) irt att =
      .error (str "References must be None, string, or list, not " ++ ty) :=
  ⟨rfl, rfl, rfl, rfl, rfl⟩

/-- C4: a reply's `references` is the receiver's `references` with the
receiver's `message_id` appended (skipped when empty), and its
`in_reply_to` is the receiver's `message_id`; instantiated on the spec's
chained scenario (`M1` → `M2` with id `"m2"` → `M3`) this gives
`M3.references = ["m1","m2"]` and `M3.in_reply_to = "m2"`. -/
theorem c4_reply_threading_chain
    (fmtDate : Int → Str) (now : Int) (e : EmailData) (rt : Str)
    (ih : Bool) (ql : Nat) :
    ((createReply fmtDate now e rt ih ql).references =
        e.references ++
          (if e.message_id ≠ [] then [e.message_id] else []) ∧
      (createReply fmtDate now e rt ih ql).in_reply_to =
        some e.message_id) ∧
    ((createReply fmtDate now
          { createReply fmtDate now sampleMsg1 rt ih ql with
              message_id := str "m2" } rt ih ql).references =
        [str "m1", str "m2"] ∧
      (createReply fmtDate now
          { createReply fmtDate now sampleMsg1 rt ih ql with
              message_id := str "m2" } rt ih ql).in_reply_to =
        some (str "m2")) :=
  ⟨⟨rfl, rfl⟩, rfl, rfl⟩

/-- C9: the reply subject is `"Re: " + subject` unless the receiver's
subject already starts with `"Re: "`, in which case it is kept unchanged;
in particular replying to subject `"Re: X"` keeps `"Re: X"`. -/
theorem c9_reply_subject_idempotent
    (fmtDate : Int → Str) (now : Int) (e : EmailData) (rt : Str)
    (ih : Bool) (ql : Nat) :
    ((createReply fmtDate now e rt ih ql).subject =
        if pyStartsWith (str "Re: ") e.subject then e.subject
        else str "Re: " ++ e.subject) ∧
    (createReply fmtDate now { sampleMsg1 with subject := str "Re: X" }
        rt ih ql).subject = str "Re: X" := by
  constructor
  · by_cases h : pyStartsWith (str "Re: ") e.subject = true <;>
      simp [createReply, h]
  · rfl

/-- C10: `create_reply` always returns a message whose `from_address` is
the empty string — the caller must fill in the sender; it is never derived
from the receiver's `to_addresses`. -/
theorem c10_reply_from_address_empty
    (fmtDate : Int → Str) (now : Int) (e : EmailData) (rt : Str)
    (ih : Bool) (ql : Nat) :
    (createReply fmtDate now e rt ih ql).from_address = [] := rfl

lemma plain_ne_html : str "text/plain" ≠ str "text/html" := by decide

lemma html_ne_plain : str "text/html" ≠ str "text/plain" := by decide

lemma epStep_fold_htmlParts (L : List Mime) (st : EmailProcessor.EpState) :
    (L.foldl EmailProcessor.epStep st).htmlParts =
      st.htmlParts ++ htmlCandidates L := by
  induction L generalizing st with
  | nil => simp [htmlCandidates]
  | cons p L ih =>
    cases p with
    | multi ct ps =>
      simp [EmailProcessor.epStep, htmlCandidates, htmlCandidate, ih]
    | leaf ct disp fn pl =>
      simp only [List.foldl_cons]
      by_cases ha : isAttachmentPart ct disp = true
      · simp [EmailProcessor.epStep, ha, htmlCandidates, htmlCandidate, ih]
      · by_cases hh : ct = str "text/html"
        · subst hh
          simp [EmailProcessor.epStep, ha, htmlCandidates, htmlCandidate,
            ih, html_ne_plain]
        · by_cases hp : ct = str "text/plain"
          · subst hp
            simp [EmailProcessor.epStep, ha, htmlCandidates, htmlCandidate,
              ih, plain_ne_html]
          · simp [EmailProcessor.epStep, ha, hp, hh, htmlCandidates,
              htmlCandidate, ih]

lemma epStep_fold_attachments (L : List Mime) (st : EmailProcessor.EpState) :
    (L.foldl EmailProcessor.epStep st).attachments =
      st.attachments ++ attachSpec L := by
  induction L generalizing st with
  | nil => simp [attachSpec]
  | cons p L ih =>
    cases p with
    | multi ct ps =>
      simp [EmailProcessor.epStep, attachSpec, attachOf, ih]
    | leaf ct disp fn pl =>
      simp only [List.foldl_cons]
      by_cases ha : isAttachmentPart ct disp = true
      · simp [EmailProcessor.epStep, ha, attachSpec, attachOf, ih]
      · by_cases hh : ct = str "text/html"
        · subst hh
          simp [EmailProcessor.epStep, ha, attachSpec, attachOf, ih,
            html_ne_plain]
        · by_cases hp : ct = str "text/plain"
          · subst hp
            simp [EmailProcessor.epStep, ha, attachSpec, attachOf, ih]
          · simp [EmailProcessor.epStep, ha, hp, hh, attachSpec, attachOf, ih]

lemma getLast?_cons_eq_or (x : α) (xs : List α) :
    (x :: xs).getLast? = xs.getLast?.or (some x) := by
  induction xs generalizing x with
  | nil => rfl
  | cons y ys ih =>
    rw [List.getLast?_cons_cons, ih y, Option.or_assoc]
    rfl

lemma femStep_fold_bodyHtml (L : List Mime) (st : FemState) :
    (L.foldl femStep st).bodyHtml =
      (htmlCandidates L).getLast?.or st.bodyHtml := by
  induction L generalizing st with
  | nil => simp [htmlCandidates]
  | cons p L ih =>
    cases p with
    | multi ct ps =>
      simp only [List.foldl_cons]
      rw [ih]
      simp [femStep, htmlCandidates, htmlCandidate]
    | leaf ct disp fn pl =>
      simp only [List.foldl_cons]
      by_cases ha : isAttachmentPart ct disp = true
      · rw [ih]
        simp [femStep, ha, htmlCandidates, htmlCandidate]
      · by_cases hh : ct = str "text/html"
        · subst hh
          rw [ih]
          have hstep : femStep st (.leaf (str "text/html") disp fn pl) =
              { st with bodyHtml := some pl } := by
            simp [femStep, ha, html_ne_plain]
          have hcand :
              htmlCandidates (Mime.leaf (str "text/html") disp fn pl :: L) =
                pl :: htmlCandidates L := by
            simp [htmlCandidates, htmlCandidate, ha]
          rw [hstep, hcand, getLast?_cons_eq_or, Option.or_assoc]
          rfl
        · by_cases hp : ct = str "text/plain"
          · subst hp
            rw [ih]
            simp [femStep, ha, htmlCandidates, htmlCandidate, plain_ne_html]
          · rw [ih]
            simp [femStep, ha, hp, hh, htmlCandidates, htmlCandidate]

lemma femStep_fold_attachments (L : List Mime) (st : FemState) :
    (L.foldl femStep st).attachments = st.attachments ++ attachSpec L := by
  induction L generalizing st with
  | nil => simp [attachSpec]
  | cons p L ih =>
    cases p with
    | multi ct ps =>
      simp [femStep, attachSpec, attachOf, ih]
    | leaf ct disp fn pl =>
      simp only [List.foldl_cons]
      by_cases ha : isAttachmentPart ct disp = true
      · simp [femStep, ha, attachSpec, attachOf, ih]
      · by_cases hh : ct = str "text/html"
        · subst hh
          simp [femStep, ha, attachSpec, attachOf, ih, html_ne_plain]
        · by_cases hp : ct = str "text/plain"
          · subst hp
            simp [femStep, ha, attachSpec, attachOf, ih]
          · simp [femStep, ha, hp, hh, attachSpec, attachOf, ih]

lemma isAttach_image_jpeg (disp : Str) :
    isAttachmentPart (str "image/jpeg") disp = true := by
  have h : pyStartsWith (str "image/") (str "image/jpeg") = true := by decide
  simp [isAttachmentPart, h]

lemma isAttach_plain_nodisp : isAttachmentPart (str "text/plain") [] = false := by
  decide

lemma isAttach_html_nodisp : isAttachmentPart (str "text/html") [] = false := by
  decide

/-- On a multipart message, `process_message_parts` returns exactly
the attachment-classified leaves in walk order. -/
lemma process_attachments_eq (conv : Str → Str) (m : Msg) (ct : Str)
    (ps : List Mime) (h : m.content = .multi ct ps) :
    (EmailProcessor.process_message_parts conv m).2.2 =
      attachSpec (Mime.walk m.content) := by
  rcases m with ⟨mid, subj, fa, toH, ccH, dateH, refH, irtH, content⟩
  simp only at h
  subst h
  simp only [EmailProcessor.process_message_parts]
  rw [epStep_fold_attachments]
  rfl

/-- On a multipart message, `from_email_message` returns exactly
the attachment-classified leaves in walk order. -/
lemma fem_attachments_eq (pd : Option Str → Int) (m : Msg) (ct : Str)
    (ps : List Mime) (h : m.content = .multi ct ps) :
    (fromEmailMessage pd m).attachments = attachSpec (Mime.walk m.content) := by
  rcases m with ⟨mid, subj, fa, toH, ccH, dateH, refH, irtH, content⟩
  simp only at h
  subst h
  simp only [fromEmailMessage, femContentState]
  rw [femStep_fold_attachments]
  rfl

/-! ## C7 fixtures and theorems -/

/-- C7 counterexample: on a multipart message with two HTML leaves,
`EmailData.from_email_message` (one of the two part walkers the claim
covers) returns the payload of the *last* `text/html` leaf as `body_html`,
not the first one in document order. -/
theorem c7_from_email_message_keeps_last_html :
    (fromEmailMessage (fun _ => 0) twoHtmlMsg).body_html = some (str "H2") ∧
    (htmlCandidates (Mime.walk twoHtmlMsg.content)).head? = some (str "H1") ∧
    (fromEmailMessage (fun _ => 0) twoHtmlMsg).body_html ≠
      (htmlCandidates (Mime.walk twoHtmlMsg.content)).head? :=
  ⟨rfl, rfl, by decide⟩

/-- C7 amended: on a multipart message, `EmailProcessor.process_message_parts`
retains the *first* non-attachment `text/html` leaf in document order as
`body_html` (later ones are ignored), while `EmailData.from_email_message`
overwrites on every `text/html` leaf and therefore retains the *last*. -/
theorem c7_first_html_retained_by_processor_last_by_message
    (conv : Str → Str) (pd : Option Str → Int) (m : Msg) (ct : Str)
    (ps : List Mime) (h : m.content = .multi ct ps) :
    (EmailProcessor.process_message_parts conv m).2.1 =
        (htmlCandidates (Mime.walk m.content)).head? ∧
      (fromEmailMessage pd m).body_html =
        (htmlCandidates (Mime.walk m.content)).getLast? := by
  rcases m with ⟨mid, subj, fa, toH, ccH, dateH, refH, irtH, content⟩
  simp only at h
  subst h
  constructor
  · simp only [EmailProcessor.process_message_parts]
    rw [epStep_fold_htmlParts]
    rfl
  · simp only [fromEmailMessage, femContentState]
    rw [femStep_fold_bodyHtml]
    simp

/-- Witness for `c7_first_html_retained_by_processor_last_by_message` on the
concrete two-HTML-leaf message. -/
theorem c7_first_last_html_witness :
    (EmailProcessor.process_message_parts id twoHtmlMsg).2.1 =
        some (str "H1") ∧
      (fromEmailMessage (fun _ => 0) twoHtmlMsg).body_html =
        some (str "H2") := by
  have h := c7_first_html_retained_by_processor_last_by_message id
    (fun _ => 0) twoHtmlMsg (str "multipart/alternative")
    [.leaf (str "text/html") [] none (str "H1"),
     .leaf (str "text/html") [] none (str "H2")] rfl
  exact ⟨h.1.trans (by rfl), h.2.trans (by rfl)⟩

/-! ## C8 fixtures and theorem -/

/-- C8: a leaf whose content type begins with `image/` is classified as an
attachment regardless of its `Content-Disposition` value, with priority
over text/HTML classification: for every disposition value, both part
walkers turn the plain/html/image tree into exactly one attachment, whose
content type starts with `image/`. -/
theorem c8_image_leaf_is_attachment
    (conv : Str → Str) (pd : Option Str → Int) (disp ct : Str)
    (h : pyStartsWith (str "image/") ct = true) :
    isAttachmentPart ct disp = true ∧
    (EmailProcessor.process_message_parts conv (c8msg disp)).2.2 = [c8att] ∧
    (fromEmailMessage pd (c8msg disp)).attachments = [c8att] ∧
    pyStartsWith (str "image/") c8att.contentType = true := by
  refine ⟨by simp [isAttachmentPart, h], ?_, ?_, by decide⟩
  · rw [process_attachments_eq conv (c8msg disp) (str "multipart/mixed") _ rfl]
    simp [c8msg, attachSpec, attachOf, Mime.walk, Mime.walkAll,
      isAttach_image_jpeg, isAttach_plain_nodisp, isAttach_html_nodisp, c8att]
  · rw [fem_attachments_eq pd (c8msg disp) (str "multipart/mixed") _ rfl]
    simp [c8msg, attachSpec, attachOf, Mime.walk, Mime.walkAll,
      isAttach_image_jpeg, isAttach_plain_nodisp, isAttach_html_nodisp, c8att]

/-- Witness for `c8_image_leaf_is_attachment` at
`Content-Disposition: inline` and content type `image/jpeg`. -/
theorem c8_image_leaf_is_attachment_witness :
    pyStartsWith (str "image/") (str "image/jpeg") = true ∧
    (isAttachmentPart (str "image/jpeg") (str "inline") = true ∧
      (EmailProcessor.process_message_parts id
        (c8msg (str "inline"))).2.2 = [c8att] ∧
      (fromEmailMessage (fun _ => 0) (c8msg (str "inline"))).attachments =
        [c8att] ∧
      pyStartsWith (str "image/") c8att.contentType = true) :=
  ⟨by decide, c8_image_leaf_is_attachment id (fun _ => 0) (str "inline")
    (str "image/jpeg") (by decide)⟩

/-! ## C5: round-trip lemmas and theorems -/

lemma splitChar_not_mem (c : Char) (s : Str) (h : c ∉ s) :
    splitChar c s = [s] := by
  induction s with
  | nil => rfl
  | cons d s ih =>
    have hd : ¬ d = c := fun he => h (he ▸ List.mem_cons_self d s)
    have hs : c ∉ s := fun hm => h (List.mem_cons_of_mem d hm)
    simp [splitChar, hd, ih hs]

lemma splitChar_append_cons (c : Char) (x y : Str) (h : c ∉ x) :
    splitChar c (x ++ c :: y) = x :: splitChar c y := by
  induction x with
  | nil => simp [splitChar]
  | cons d x ih =>
    have hd : ¬ d = c := fun he => h (he ▸ List.mem_cons_self d x)
    have hx : c ∉ x := fun hm => h (List.mem_cons_of_mem d hm)
    have := ih hx
    simp only [List.cons_append, splitChar, hd, if_false, List.append_eq, this]

lemma pyStrip_cons_space (x : Str) : pyStrip (' ' :: x) = pyStrip x := by
  simp [pyStrip, List.dropWhile, pySpace]

lemma joinSep_cons_cons (sep : Str) (a b : Str) (l : List Str) :
    joinSep sep (a :: b :: l) = a ++ sep ++ joinSep sep (b :: l) := rfl

lemma space_cons_joinSep (b : Str) (l : List Str) :
    ' ' :: joinSep (str ", ") (b :: l) = joinSep (str ", ") ((' ' :: b) :: l) := by
  cases l with
  | nil => rfl
  | cons c l => simp [joinSep_cons_cons]

lemma parse_aux (l : List Str) : ∀ (a : Str), a ≠ [] → ',' ∉ a →
    (∀ b ∈ l, addrOk b) →
    ((splitChar ',' (joinSep (str ", ") (a :: l))).filter
        (fun p => p ≠ [])).map pyStrip = pyStrip a :: l := by
  induction l with
  | nil =>
    intro a ha hc _
    have h1 : splitChar ',' (joinSep (str ", ") [a]) = [a] := by
      simpa [joinSep] using splitChar_not_mem ',' a hc
    simp [h1, ha]
  | cons b l ih =>
    intro a ha hc hok
    have hb := hok b (List.mem_cons_self b l)
    have hsplit :
        splitChar ',' (joinSep (str ", ") (a :: b :: l)) =
          a :: splitChar ',' (joinSep (str ", ") ((' ' :: b) :: l)) := by
      have : joinSep (str ", ") (a :: b :: l) =
          a ++ ',' :: (' ' :: joinSep (str ", ") (b :: l)) := by
        simp [joinSep_cons_cons, str]
      rw [this, splitChar_append_cons ',' a _ hc, space_cons_joinSep]
    have hrest := ih (' ' :: b) (by simp) (by
        intro hm
        rcases List.mem_cons.mp hm with h | h
        · exact absurd h.symm (by decide)
        · exact hb.2.1 h)
      (fun x hx => hok x (List.mem_cons_of_mem b hx))
    rw [hsplit]
    have hdec : decide (a ≠ []) = true := decide_eq_true ha
    simp only [List.filter_cons, hdec, if_true, List.map_cons]
    rw [hrest, pyStrip_cons_space, hb.2.2]

lemma joinComma_roundtrip (l : List Str) (h : ∀ a ∈ l, addrOk a) :
    parseAddressHeader (some (joinSep (str ", ") l)) = l := by
  cases l with
  | nil => rfl
  | cons a l =>
    have ha := h a (List.mem_cons_self a l)
    have := parse_aux l a ha.1 ha.2.1 (fun x hx => h x (List.mem_cons_of_mem a hx))
    simp only [parseAddressHeader, Option.getD]
    rw [this, ha.2.2]

lemma pyRstrip_append_space (x : Str) (c : Char) (h : pySpace c = true) :
    pyRstrip (x ++ [c]) = pyRstrip x := by
  simp [pyRstrip, List.dropWhile, h]

lemma pyRstrip_eq_nil (s : Str) (h : ∀ c ∈ s, pySpace c) : pyRstrip s = [] := by
  have : s.reverse.dropWhile pySpace = [] :=
    List.dropWhile_eq_nil_iff.mpr (fun c hc => h c (List.mem_reverse.mp hc))
  simp [pyRstrip, this]

lemma pyStrip_eq_nil_iff (s : Str) : pyStrip s = [] ↔ ∀ c ∈ s, pySpace c := by
  constructor
  · intro h c hc
    have h1 : (s.dropWhile pySpace).reverse.dropWhile pySpace = [] := by
      simpa [pyStrip] using congrArg List.reverse h
    have h2 : ∀ c ∈ (s.dropWhile pySpace).reverse, pySpace c :=
      List.dropWhile_eq_nil_iff.mp h1
    have h3 : ∀ c ∈ s.dropWhile pySpace, pySpace c :=
      fun c hc => h2 c (List.mem_reverse.mpr hc)
    rcases (List.takeWhile_append_dropWhile (p := pySpace) (l := s)) ▸ hc with hm
    rcases List.mem_append.mp hm with hm | hm
    · exact List.mem_takeWhile_imp hm
    · exact h3 c hm
  · intro h
    have : s.dropWhile pySpace = [] := List.dropWhile_eq_nil_iff.mpr h
    simp [pyStrip, this]

lemma joinNL_splitlinesBGo (s : Str) : ∀ (acc : Str), '\r' ∉ s → '\n' ∉ acc →
    (joinNL (pySplitlinesBGo acc s) =
      if s.getLast? = some '\n' then acc ++ s.dropLast else acc ++ s) ∧
    (pySplitlinesBGo acc s = [] ↔ (s = [] ∧ acc = [])) := by
  induction s with
  | nil =>
    intro acc h1 h2
    by_cases ha : acc = [] <;> simp [pySplitlinesBGo, ha, joinNL, joinSep]
  | cons c t ih =>
    intro acc h1 h2
    have hcr : ¬ c = '\r' := fun he => h1 (he ▸ List.mem_cons_self c t)
    have ht : '\r' ∉ t := fun hm => h1 (List.mem_cons_of_mem c hm)
    by_cases hcn : c = '\n'
    · subst hcn
      have hgoeq : pySplitlinesBGo acc ('\n' :: t) = acc :: pySplitlinesBGo [] t := by
        simp [pySplitlinesBGo]
      have hrec := ih [] ht (by simp)
      refine ⟨?_, by simp [hgoeq]⟩
      rcases hgo : pySplitlinesBGo [] t with _ | ⟨r, rs⟩
      · have htnil : t = [] := ((hrec.2).mp hgo).1
        subst htnil
        simp [hgoeq, hgo, joinNL, joinSep]
      · have htne : t ≠ [] := by
          intro hz
          subst hz
          simp [pySplitlinesBGo] at hgo
        rcases t with _ | ⟨d, t'⟩
        · exact absurd rfl htne
        · have hj : joinNL (pySplitlinesBGo [] (d :: t')) =
              if (d :: t').getLast? = some '\n' then (d :: t').dropLast
              else (d :: t') := by
            have := hrec.1
            simpa using this
          rw [hgoeq, hgo] at *
          have hjoin : joinNL (acc :: r :: rs) = acc ++ ['\n'] ++ joinNL (r :: rs) := by
            simp [joinNL, joinSep_cons_cons]
          rw [hjoin, ← hgo, hj, List.getLast?_cons_cons,
            List.dropLast_cons_of_ne_nil (by simp : (d : Char) :: t' ≠ [])]
          split <;> simp
    · have hgoeq : pySplitlinesBGo acc (c :: t) = pySplitlinesBGo (acc ++ [c]) t := by
        simp [pySplitlinesBGo, hcr, hcn]
      have hacc : '\n' ∉ acc ++ [c] := by
        intro hm
        rcases List.mem_append.mp hm with hm | hm
        · exact h2 hm
        · simp at hm
          exact hcn hm.symm
      have hrec := ih (acc ++ [c]) ht hacc
      refine ⟨?_, ?_⟩
      · rw [hgoeq, hrec.1]
        rcases t with _ | ⟨d, t'⟩
        · simp [List.getLast?_singleton, hcn]
        · rw [List.getLast?_cons_cons,
            List.dropLast_cons_of_ne_nil (by simp : (d : Char) :: t' ≠ [])]
          split <;> simp
      · rw [hgoeq, hrec.2]
        simp

lemma encodeText_rstrip (s : Str) (h : '\r' ∉ s) :
    pyRstrip (encodeText s) = pyRstrip s := by
  have hj := (joinNL_splitlinesBGo s [] h (by simp)).1
  unfold encodeText pySplitlinesB
  rw [pyRstrip_append_space _ '\n' (by decide), hj]
  by_cases hlast : s.getLast? = some '\n'
  · have hmem : '\n' ∈ s.getLast? := by simp [hlast]
    have hs : s.dropLast ++ ['\n'] = s := List.dropLast_append_getLast? '\n' hmem
    rw [if_pos hlast]
    conv_rhs => rw [← hs]
    rw [pyRstrip_append_space _ '\n' (by decide)]
    simp
  · rw [if_neg hlast]
    simp

lemma encodeText_allspace (s : Str) (h : '\r' ∉ s)
    (hsp : ∀ c ∈ encodeText s, pySpace c) : ∀ c ∈ s, pySpace c := by
  have hj := (joinNL_splitlinesBGo s [] h (by simp)).1
  intro c hc
  by_cases hlast : s.getLast? = some '\n'
  · have hmem : '\n' ∈ s.getLast? := by simp [hlast]
    have hs : s.dropLast ++ ['\n'] = s := List.dropLast_append_getLast? '\n' hmem
    rcases List.mem_append.mp (hs ▸ hc) with hm | hm
    · apply hsp
      unfold encodeText pySplitlinesB
      rw [hj, if_pos hlast]
      simp [hm]
    · simp at hm
      subst hm
      decide
  · apply hsp
    unfold encodeText pySplitlinesB
    rw [hj, if_neg hlast]
    simp [hc]

lemma body_roundtrip (bt : Str) (h : '\r' ∉ bt) :
    pyRstrip (combineParts [encodeText bt]) = pyRstrip bt := by
  unfold combineParts
  by_cases hq : pyStrip (encodeText bt) = []
  · have hall : ∀ c ∈ bt, pySpace c :=
      encodeText_allspace bt h ((pyStrip_eq_nil_iff _).mp hq)
    have h1 := pyRstrip_eq_nil bt hall
    simp [List.filter, hq, joinNL, joinSep, h1, pyRstrip]
    exact hall
  · simp only [List.filter, hq]
    simp [joinNL, joinSep, encodeText_rstrip bt h, hq]

lemma storeHeader_ok (v : Str) (h : hdrOk v) : storeHeader v = .ok v := by
  unfold storeHeader
  rw [if_neg]
  rintro (hc | hc)
  · exact h.1 hc
  · exact h.2 hc

lemma hdrOk_joinSep (sep : Str) (l : List Str) (hs : hdrOk sep)
    (h : ∀ a ∈ l, hdrOk a) : hdrOk (joinSep sep l) := by
  induction l with
  | nil => exact ⟨by simp [joinSep], by simp [joinSep]⟩
  | cons a l ih =>
    cases l with
    | nil => exact h a (List.mem_cons_self a [])
    | cons b t =>
      have h1 := h a (List.mem_cons_self a _)
      have h2 := ih (fun x hx => h x (List.mem_cons_of_mem a hx))
      rw [joinSep_cons_cons]
      have hnm : ∀ (c : Char), c ∉ a → c ∉ sep →
          c ∉ joinSep sep (b :: t) → c ∉ a ++ sep ++ joinSep sep (b :: t) := by
        intro c k1 k2 k3 hm
        simp only [List.mem_append] at hm
        tauto
      exact ⟨hnm '\n' h1.1 hs.1 h2.1, hnm '\r' h1.2 hs.2 h2.2⟩

/-- C5 amended: with no attachments, an ASCII body free of carriage
returns, to/cc entries that are nonempty, comma-free, trim-fixed and
CR/LF-free, CR/LF-free subject/from/in-reply-to/references values, and a
header store/fetch layer that is transparent on this message's
Subject/From/To/Cc values (as `policy.default` is for plain ASCII values
without encoded words, comments or address specials), serialization
succeeds and re-parsing preserves subject, from_address, to_addresses and
cc_addresses exactly and body_text up to trailing whitespace. -/
theorem c5_roundtrip_amended (mdConvert uRT aRT : Str → Str)
    (pd : Option Str → Int) (e : EmailData)
    (hatt : e.attachments = [])
    (hascii : ∀ c ∈ e.body_text, c.toNat < 128)
    (hcr : '\r' ∉ e.body_text)
    (hto : ∀ a ∈ e.to_addresses, addrOk a ∧ hdrOk a)
    (hcc : ∀ a ∈ e.cc_addresses, addrOk a ∧ hdrOk a)
    (hsub : hdrOk e.subject)
    (hfrom : hdrOk e.from_address)
    (hirt : hdrOk ((e.in_reply_to).getD []))
    (href : ∀ r ∈ e.references, hdrOk r)
    (huS : uRT e.subject = e.subject)
    (haF : aRT e.from_address = e.from_address)
    (haT : aRT (joinSep (str ", ") e.to_addresses) =
      joinSep (str ", ") e.to_addresses)
    (haC : aRT (joinSep (str ", ") e.cc_addresses) =
      joinSep (str ", ") e.cc_addresses) :
    ∃ m, toEmailMessage mdConvert uRT aRT e = .ok m ∧
      (fromEmailMessage pd m).subject = e.subject ∧
      (fromEmailMessage pd m).from_address = e.from_address ∧
      (fromEmailMessage pd m).to_addresses = e.to_addresses ∧
      (fromEmailMessage pd m).cc_addresses = e.cc_addresses ∧
      pyRstrip (fromEmailMessage pd m).body_text = pyRstrip e.body_text := by
  rcases e with ⟨mid, subj, fa, toas, ccas, bt, bh, ts, refs, irt, atts⟩
  simp only at hatt hascii hcr hto hcc hsub hfrom hirt href huS haF haT haC
  subst hatt
  have hS : storeHeader subj = .ok subj := storeHeader_ok _ hsub
  have hF : storeHeader fa = .ok fa := storeHeader_ok _ hfrom
  have hT : storeHeader (joinSep (str ", ") toas) =
      .ok (joinSep (str ", ") toas) :=
    storeHeader_ok _ (hdrOk_joinSep _ _ (by decide)
      (fun a ha => (hto a ha).2))
  have hccV : (if ccas ≠ [] then
        (storeHeader (joinSep (str ", ") ccas)).map some
      else pure none) =
      (Except.ok (if ccas ≠ [] then some (joinSep (str ", ") ccas)
        else none) : Except Str (Option Str)) := by
    have hok := storeHeader_ok _ (hdrOk_joinSep (str ", ") ccas (by decide)
      (fun a ha => (hcc a ha).2))
    by_cases h : ccas = [] <;> simp [h, hok, Except.map, pure, Except.pure]
  have hirtV : (if optStrTruthy irt then
        (storeHeader (irt.getD [])).map some
      else pure none) =
      (Except.ok (if optStrTruthy irt then some (irt.getD []) else none) :
        Except Str (Option Str)) := by
    have hok := storeHeader_ok _ hirt
    by_cases h : optStrTruthy irt = true <;>
      simp [h, hok, Except.map, pure, Except.pure]
  have hrefV : (if refs ≠ [] then
        (storeHeader (joinSep (str " ") refs)).map some
      else pure none) =
      (Except.ok (if refs ≠ [] then some (joinSep (str " ") refs) else none) :
        Except Str (Option Str)) := by
    have hok := storeHeader_ok _ (hdrOk_joinSep (str " ") refs (by decide) href)
    by_cases h : refs = [] <;> simp [h, hok, Except.map, pure, Except.pure]
  have hmsg : toEmailMessage mdConvert uRT aRT
      ⟨mid, subj, fa, toas, ccas, bt, bh, ts, refs, irt, []⟩ = .ok
      { subject := some (uRT subj)
        fromAddr := some (aRT fa)
        toHdr := some (aRT (joinSep (str ", ") toas))
        ccHdr := (if ccas ≠ [] then some (joinSep (str ", ") ccas)
          else none).map aRT
        inReplyToHdr := (if optStrTruthy irt then some (irt.getD [])
          else none).map uRT
        referencesHdr := (if refs ≠ [] then some (joinSep (str " ") refs)
          else none).map uRT
        content :=
          if optStrTruthy (if ¬ optStrTruthy bh ∧ hasMarkdownMarker bt then
              some (mdConvert bt) else bh) then
            .multi (str "multipart/alternative")
              [.leaf (str "text/plain") [] none (encodeText bt),
               .leaf (str "text/html") [] none
                 (encodeText ((if ¬ optStrTruthy bh ∧ hasMarkdownMarker bt then
                   some (mdConvert bt) else bh).getD []))]
          else .leaf (str "text/plain") [] none (encodeText bt) } := by
    simp only [toEmailMessage, hS, hF, hT, hccV, hirtV, hrefV]
    rfl
  refine ⟨_, hmsg, ?_, ?_, ?_, ?_, ?_⟩
  · exact huS
  · exact haF
  · show parseAddressHeader (some (aRT (joinSep (str ", ") toas))) = toas
    rw [haT]
    exact joinComma_roundtrip toas (fun a ha => (hto a ha).1)
  · show parseAddressHeader ((if ccas ≠ [] then
        some (joinSep (str ", ") ccas) else none).map aRT) = ccas
    by_cases h : ccas = []
    · subst h
      rfl
    · rw [if_pos h]
      show parseAddressHeader (some (aRT (joinSep (str ", ") ccas))) = ccas
      rw [haC]
      exact joinComma_roundtrip ccas (fun a ha => (hcc a ha).1)
  · set hc : Option Str :=
      if ¬ optStrTruthy bh ∧ hasMarkdownMarker bt then some (mdConvert bt)
      else bh with hhc
    by_cases hhtml : optStrTruthy hc = true
    · rw [if_pos hhtml]
      have hst : (femContentState (.multi (str "multipart/alternative")
          [.leaf (str "text/plain") [] none (encodeText bt),
           .leaf (str "text/html") [] none (encodeText (hc.getD []))])).textParts
          = [encodeText bt] := by
        simp [femContentState, Mime.walk, Mime.walkAll, femStep,
          isAttach_plain_nodisp, isAttach_html_nodisp, html_ne_plain]
      simp only [fromEmailMessage]
      rw [hst]
      exact body_roundtrip bt hcr
    · rw [if_neg hhtml]
      have hst : (femContentState (.leaf (str "text/plain") [] none
          (encodeText bt))).textParts = [encodeText bt] := by
        simp [femContentState]
      simp only [fromEmailMessage]
      rw [hst]
      exact body_roundtrip bt hcr

/-- C5 counterexample (header layer instantiated to the identity, which is
what the real header store/fetch does on these already-canonical values):
a to-address entry containing a comma is split into two addresses by the
round trip; an ASCII body containing a lone carriage return comes back
with it rewritten to a newline, differing beyond trailing whitespace; and
a subject containing a newline makes serialization raise `ValueError`
instead of round-tripping. -/
theorem c5_counterexample_roundtrip_mismatch :
    (commaMsg.attachments = [] ∧ ∀ c ∈ commaMsg.body_text, c.toNat < 128) ∧
    (toEmailMessage id id id commaMsg).toOption.map
        (fun m => (fromEmailMessage (fun _ => 0) m).to_addresses) =
      some [str "a@x.com", str "b@x.com"] ∧
    (toEmailMessage id id id commaMsg).toOption.map
        (fun m => (fromEmailMessage (fun _ => 0) m).to_addresses) ≠
      some commaMsg.to_addresses ∧
    (crMsg.attachments = [] ∧ ∀ c ∈ crMsg.body_text, c.toNat < 128) ∧
    (toEmailMessage id id id crMsg).toOption.map
        (fun m => pyRstrip (fromEmailMessage (fun _ => 0) m).body_text) =
      some (str "a\nb") ∧
    (toEmailMessage id id id crMsg).toOption.map
        (fun m => pyRstrip (fromEmailMessage (fun _ => 0) m).body_text) ≠
      some (pyRstrip crMsg.body_text) ∧
    toEmailMessage id id id { commaMsg with subject := str "a\nb" } =
      .error
        (str "Header values may not contain linefeed or carriage return characters") :=
  ⟨by decide, by decide, by decide, by decide, by decide, by decide, rfl⟩

/-- Witness for `c5_roundtrip_amended` on a concrete plain-ASCII message
with the identity header layer. -/
theorem c5_roundtrip_amended_witness :
    (roundtripMsg.attachments = [] ∧
      (∀ c ∈ roundtripMsg.body_text, c.toNat < 128) ∧
      '\r' ∉ roundtripMsg.body_text ∧
      (∀ a ∈ roundtripMsg.to_addresses, addrOk a ∧ hdrOk a) ∧
      (∀ a ∈ roundtripMsg.cc_addresses, addrOk a ∧ hdrOk a) ∧
      hdrOk roundtripMsg.subject ∧ hdrOk roundtripMsg.from_address) ∧
    (∃ m, toEmailMessage id id id roundtripMsg = .ok m ∧
      (fromEmailMessage (fun _ => 0) m).subject = roundtripMsg.subject ∧
      (fromEmailMessage (fun _ => 0) m).from_address =
        roundtripMsg.from_address ∧
      (fromEmailMessage (fun _ => 0) m).to_addresses =
        roundtripMsg.to_addresses ∧
      (fromEmailMessage (fun _ => 0) m).cc_addresses =
        roundtripMsg.cc_addresses ∧
      pyRstrip (fromEmailMessage (fun _ => 0) m).body_text =
        pyRstrip roundtripMsg.body_text) :=
  ⟨⟨by decide, by decide, by decide, by decide, by decide, by decide,
      by decide⟩,
    c5_roundtrip_amended id id id (fun _ => 0) roundtripMsg (by decide)
      (by decide) (by decide) (by decide) (by decide) (by decide) (by decide)
      (by decide) (by decide) rfl rfl rfl rfl⟩

/-! ## C6: idempotence of the text-processor quote segmentation -/

lemma length_dropWhile_le' (p : Str → Bool) (ls : List Str) :
    (ls.dropWhile p).length ≤ ls.length := by
  induction ls with
  | nil => simp
  | cons a l ih =>
    by_cases h : p a <;> simp [List.dropWhile, h] <;> omega

lemma runs_nil : runs [] = [] := by rw [runs.eq_def]

lemma runs_cons (l : Str) (ls : List Str) :
    runs (l :: ls) =
      (l :: ls.takeWhile (fun x => isQ x == isQ l)) ::
        runs (ls.dropWhile (fun x => isQ x == isQ l)) := by
  rw [runs.eq_def]



lemma takeWhile_all_append (p : Str → Bool) (xs ys : List Str)
    (h : ∀ x ∈ xs, p x = true) :
    (xs ++ ys).takeWhile p = xs ++ ys.takeWhile p := by
  induction xs with
  | nil => simp
  | cons a l ih =>
    have ha := h a (List.mem_cons_self a l)
    simp [List.takeWhile, ha, ih (fun x hx => h x (List.mem_cons_of_mem a hx))]

lemma dropWhile_all_append (p : Str → Bool) (xs ys : List Str)
    (h : ∀ x ∈ xs, p x = true) :
    (xs ++ ys).dropWhile p = ys.dropWhile p := by
  induction xs with
  | nil => simp
  | cons a l ih =>
    have ha := h a (List.mem_cons_self a l)
    simp [List.dropWhile, ha, ih (fun x hx => h x (List.mem_cons_of_mem a hx))]

lemma flatten_runs (ls : List Str) : (runs ls).flatten = ls := by
  induction ls using runs.induct with
  | case1 => simp [runs_nil]
  | case2 l ls ih =>
    rw [runs_cons]
    simp only [List.flatten_cons, ih]
    simp [List.takeWhile_append_dropWhile]

lemma runs_mem_ne_nil_homog (ls : List Str) :
    ∀ r ∈ runs ls, r ≠ [] ∧ ∃ b, ∀ x ∈ r, isQ x = b := by
  induction ls using runs.induct with
  | case1 => simp [runs_nil]
  | case2 l ls ih =>
    rw [runs_cons]
    intro r hr
    rcases List.mem_cons.mp hr with hr | hr
    · subst hr
      refine ⟨by simp, isQ l, ?_⟩
      intro x hx
      rcases List.mem_cons.mp hx with hx | hx
      · rw [hx]
      · have := List.mem_takeWhile_imp hx
        simpa using this
    · exact ih r hr

lemma runs_of_homog (c : List Str) (b : Bool) (hne : c ≠ [])
    (hb : ∀ x ∈ c, isQ x = b) : runs c = [c] := by
  rcases c with _ | ⟨c0, c'⟩
  · exact absurd rfl hne
  · rw [runs_cons]
    have hc0 : isQ c0 = b := hb c0 (List.mem_cons_self c0 c')
    have hall : ∀ x ∈ c', (fun x => isQ x == isQ c0) x = true := by
      intro x hx
      simp [hb x (List.mem_cons_of_mem c0 hx), hc0]
    have ht : c'.takeWhile (fun x => isQ x == isQ c0) = c' := by
      have := takeWhile_all_append (fun x => isQ x == isQ c0) c' [] hall
      simpa using this
    have hd : c'.dropWhile (fun x => isQ x == isQ c0) = [] := by
      have := dropWhile_all_append (fun x => isQ x == isQ c0) c' [] hall
      simpa using this
    rw [ht, hd, runs_nil]

lemma runs_append_diff (c : List Str) (b : Bool) (t : List Str)
    (hne : c ≠ []) (hb : ∀ x ∈ c, isQ x = b)
    (ht : t = [] ∨ ∃ t0 t', t = t0 :: t' ∧ isQ t0 ≠ b) :
    runs (c ++ t) = c :: runs t := by
  rcases ht with rfl | ⟨t0, t', rfl, ht0⟩
  · rw [List.append_nil, runs_of_homog c b hne hb, runs_nil]
  · rcases c with _ | ⟨c0, c'⟩
    · exact absurd rfl hne
    · have hc0 : isQ c0 = b := hb c0 (List.mem_cons_self c0 c')
      have hall : ∀ x ∈ c', (fun x => isQ x == isQ c0) x = true := by
        intro x hx
        simp [hb x (List.mem_cons_of_mem c0 hx), hc0]
      have ht0' : (isQ t0 == isQ c0) = false := by
        rw [hc0]
        simp only [beq_eq_false_iff_ne, ne_eq]
        exact ht0
      rw [List.cons_append, runs_cons,
        takeWhile_all_append _ c' (t0 :: t') hall,
        dropWhile_all_append _ c' (t0 :: t') hall]
      simp [List.takeWhile, List.dropWhile, ht0']

lemma runs_append_same (c : List Str) (b : Bool) (t0 : Str) (t' : List Str)
    (hne : c ≠ []) (hb : ∀ x ∈ c, isQ x = b) (ht0 : isQ t0 = b) :
    runs (c ++ t0 :: t') =
      (c ++ t0 :: t'.takeWhile (fun x => isQ x == isQ t0)) ::
        runs (t'.dropWhile (fun x => isQ x == isQ t0)) := by
  rcases c with _ | ⟨c0, c'⟩
  · exact absurd rfl hne
  · have hc0 : isQ c0 = b := hb c0 (List.mem_cons_self c0 c')
    have hall : ∀ x ∈ c', (fun x => isQ x == isQ c0) x = true := by
      intro x hx
      simp [hb x (List.mem_cons_of_mem c0 hx), hc0]
    have hpred : (fun x => isQ x == isQ c0) = (fun x => isQ x == isQ t0) := by
      funext x
      rw [hc0, ht0]
    rw [List.cons_append, runs_cons,
      takeWhile_all_append _ c' (t0 :: t') hall,
      dropWhile_all_append _ c' (t0 :: t') hall]
    have ht0' : (isQ t0 == isQ c0) = true := by simp [hc0, ht0]
    simp only [List.takeWhile, List.dropWhile, ht0', hpred]
    simp

lemma partsLoop_carry (ls : List Str) : ∀ (c : List Str), c ≠ [] →
    ((∀ x ∈ c, isQ x = false) →
      TextProcessor.partsLoop ls c [] = (runs (c ++ ls)).map joinNL) ∧
    ((∀ x ∈ c, isQ x = true) →
      TextProcessor.partsLoop ls [] c = (runs (c ++ ls)).map joinNL) := by
  induction ls with
  | nil =>
    intro c hc
    constructor
    · intro hb
      rw [List.append_nil, runs_of_homog c false hc hb]
      simp [TextProcessor.partsLoop, hc]
    · intro hb
      rw [List.append_nil, runs_of_homog c true hc hb]
      simp [TextProcessor.partsLoop, hc]
  | cons l ls ih =>
    intro c hc
    constructor
    · intro hb
      by_cases hl : isQ l = true
      · -- text carry, quote line: emit text part, start quote carry [l]
        have h1 := (ih [l] (by simp)).2 (by simpa using hl)
        have h2 := runs_append_diff c false (l :: ls) hc hb
          (Or.inr ⟨l, ls, rfl, by simp [hl]⟩)
        simp only [TextProcessor.partsLoop, isQ] at h1 ⊢
        rw [if_pos (by simpa [isQ] using hl), if_pos hc]
        rw [h2]
        simp [h1]
      · -- text carry, text line: extend the carry
        have h1 := (ih (c ++ [l]) (by simp)).1 (by
          intro x hx
          rcases List.mem_append.mp hx with hx | hx
          · exact hb x hx
          · simp at hx
            simp [hx, Bool.eq_false_iff.mpr hl])
        simp only [TextProcessor.partsLoop, isQ] at h1 ⊢
        rw [if_neg (by simpa [isQ] using hl)]
        simp only [if_neg (by simp : ¬ ([] : List Str) ≠ [])]
        rw [h1, List.append_assoc]
        simp
    · intro hb
      by_cases hl : isQ l = true
      · -- quote carry, quote line: extend the carry
        have h1 := (ih (c ++ [l]) (by simp)).2 (by
          intro x hx
          rcases List.mem_append.mp hx with hx | hx
          · exact hb x hx
          · simp at hx
            simp [hx, hl])
        simp only [TextProcessor.partsLoop, isQ] at h1 ⊢
        rw [if_pos (by simpa [isQ] using hl)]
        simp only [if_neg (by simp : ¬ ([] : List Str) ≠ [])]
        rw [h1, List.append_assoc]
        simp
      · -- quote carry, text line: emit quote part, start text carry [l]
        have h1 := (ih [l] (by simp)).1 (by simpa using Bool.eq_false_iff.mpr hl)
        have h2 := runs_append_diff c true (l :: ls) hc hb
          (Or.inr ⟨l, ls, rfl, by simp [Bool.eq_false_iff.mpr hl]⟩)
        simp only [TextProcessor.partsLoop, isQ] at h1 ⊢
        rw [if_neg (by simpa [isQ] using hl), if_pos hc]
        rw [h2]
        simp [h1]

lemma partsLoop_start (ls : List Str) :
    TextProcessor.partsLoop ls [] [] = (runs ls).map joinNL := by
  cases ls with
  | nil => rw [runs_nil]; rfl
  | cons l ls =>
    by_cases hl : isQ l = true
    · have h1 := (partsLoop_carry ls [l] (by simp)).2 (by simpa using hl)
      simp only [TextProcessor.partsLoop]
      rw [if_pos (by simpa [isQ] using hl)]
      simp only [if_neg (by simp : ¬ ([] : List Str) ≠ [])]
      simpa using h1
    · have h1 := (partsLoop_carry ls [l] (by simp)).1
        (by simpa using Bool.eq_false_iff.mpr hl)
      simp only [TextProcessor.partsLoop]
      rw [if_neg (by simpa [isQ] using hl)]
      simp only [if_neg (by simp : ¬ ([] : List Str) ≠ [])]
      simpa using h1

lemma mem_joinNL_of_mem {c : Char} {x : Str} {k : List Str}
    (hx : x ∈ k) (hc : c ∈ x) : c ∈ joinNL k := by
  induction k with
  | nil => cases hx
  | cons y k' ih =>
    cases k' with
    | nil =>
      simp at hx
      subst hx
      simpa [joinNL, joinSep] using hc
    | cons z k'' =>
      rw [show joinNL (y :: z :: k'') = y ++ ['\n'] ++ joinNL (z :: k'')
        from rfl]
      rcases List.mem_cons.mp hx with hx | hx
      · subst hx
        exact List.mem_append.mpr (Or.inl (List.mem_append.mpr (Or.inl hc)))
      · exact List.mem_append.mpr (Or.inr (ih hx))

lemma mem_of_mem_joinNL {c : Char} {k : List Str} (hc : c ∈ joinNL k) :
    c = '\n' ∨ ∃ x ∈ k, c ∈ x := by
  induction k with
  | nil => simp [joinNL, joinSep] at hc
  | cons y k' ih =>
    cases k' with
    | nil =>
      simp [joinNL, joinSep] at hc
      exact Or.inr ⟨y, by simp, hc⟩
    | cons z k'' =>
      rw [show joinNL (y :: z :: k'') = y ++ ['\n'] ++ joinNL (z :: k'')
        from rfl] at hc
      rcases List.mem_append.mp hc with hc | hc
      · rcases List.mem_append.mp hc with hc | hc
        · exact Or.inr ⟨y, by simp, hc⟩
        · simp at hc
          exact Or.inl hc
      · rcases ih hc with hc | ⟨x, hx, hcx⟩
        · exact Or.inl hc
        · exact Or.inr ⟨x, List.mem_cons_of_mem y hx, hcx⟩

lemma keptRun_iff (k : List Str) :
    pyStrip (joinNL k) ≠ [] ↔ ∃ x ∈ k, ∃ c ∈ x, pySpace c = false := by
  rw [Ne, pyStrip_eq_nil_iff]
  constructor
  · intro h
    push_neg at h
    rcases h with ⟨c, hc, hcs⟩
    rcases mem_of_mem_joinNL hc with rfl | ⟨x, hx, hcx⟩
    · exact absurd (by decide : pySpace '\n' = true) hcs
    · exact ⟨x, hx, c, hcx, Bool.eq_false_iff.mpr hcs⟩
  · rintro ⟨x, hx, c, hcx, hcs⟩ h
    have := h c (mem_joinNL_of_mem hx hcx)
    rw [this] at hcs
    cases hcs

lemma isQ_nonspace (x : Str) (h : isQ x = true) :
    ∃ c ∈ x, pySpace c = false := by
  rcases x with _ | ⟨c0, x'⟩
  · simp [isQ, pyStartsWith, str, List.isPrefixOf] at h
  · have hc : '>' = c0 := by
      simpa [isQ, pyStartsWith, str, List.isPrefixOf] using h
    exact ⟨c0, List.mem_cons_self c0 x', by rw [← hc]; decide⟩

lemma joinNL_cons_cons (a b : Str) (t : List Str) :
    joinNL (a :: b :: t) = a ++ '\n' :: joinNL (b :: t) := by
  rw [show joinNL (a :: b :: t) = a ++ ['\n'] ++ joinNL (b :: t) from rfl]
  simp

lemma joinNL_append (xs ys : List Str) (hx : xs ≠ []) (hy : ys ≠ []) :
    joinNL (xs ++ ys) = joinNL xs ++ '\n' :: joinNL ys := by
  induction xs with
  | nil => exact absurd rfl hx
  | cons x xs' ih =>
    cases xs' with
    | nil =>
      rcases ys with _ | ⟨y, ys'⟩
      · exact absurd rfl hy
      · simpa [joinNL, joinSep] using joinNL_cons_cons x y ys'
    | cons x2 xs'' =>
      rw [show (x :: x2 :: xs'') ++ ys = x :: x2 :: (xs'' ++ ys) from by simp,
        joinNL_cons_cons x x2 (xs'' ++ ys),
        show x2 :: (xs'' ++ ys) = (x2 :: xs'') ++ ys from by simp,
        ih (by simp), joinNL_cons_cons x x2 xs'']
      simp

lemma flatten_ne_nil (rs : List (List Str)) (hne : rs ≠ [])
    (h : ∀ r ∈ rs, r ≠ []) : rs.flatten ≠ [] := by
  rcases rs with _ | ⟨r, rs'⟩
  · exact absurd rfl hne
  · have := h r (List.mem_cons_self r rs')
    rcases r with _ | ⟨c, r'⟩
    · exact absurd rfl this
    · simp

lemma joinNL_map_join (rs : List (List Str)) (h : ∀ r ∈ rs, r ≠ []) :
    joinNL (rs.map joinNL) = joinNL rs.flatten := by
  induction rs with
  | nil => rfl
  | cons r rs' ih =>
    cases rs' with
    | nil => simp [joinNL, joinSep]
    | cons r2 rs'' =>
      have hmap : (r2 :: rs'').map joinNL = joinNL r2 :: rs''.map joinNL := rfl
      rw [List.map_cons, hmap, joinNL_cons_cons, ← hmap,
        ih (fun x hx => h x (List.mem_cons_of_mem r hx))]
      have hr : r ≠ [] := h r (List.mem_cons_self r _)
      have hfl : (r2 :: rs'').flatten ≠ [] :=
        flatten_ne_nil _ (by simp)
          (fun x hx => h x (List.mem_cons_of_mem r hx))
      rw [show (r :: r2 :: rs'').flatten = r ++ (r2 :: rs'').flatten from rfl,
        joinNL_append r _ hr hfl]

lemma splitChar_pieces_no_sep (c : Char) (s : Str) :
    ∀ x ∈ splitChar c s, c ∉ x := by
  induction s with
  | nil =>
    intro x hx
    simp [splitChar] at hx
    simp [hx]
  | cons d s ih =>
    intro x hx
    by_cases hd : d = c
    · simp only [splitChar, hd, if_true] at hx
      rcases List.mem_cons.mp hx with hx | hx
      · simp [hx]
      · exact ih x hx
    · simp only [splitChar, hd, if_false] at hx
      rcases hsp : splitChar c s with _ | ⟨r, rs⟩
      · rw [hsp] at hx
        simp at hx
        subst hx
        intro hm
        rcases List.mem_cons.mp hm with hm | hm
        · exact hd hm.symm
        · cases hm
      · rw [hsp] at hx
        rcases List.mem_cons.mp hx with hx | hx
        · subst hx
          intro hm
          rcases List.mem_cons.mp hm with hm | hm
          · exact hd hm.symm
          · exact ih r (hsp ▸ List.mem_cons_self r rs) hm
        · exact ih x (hsp ▸ List.mem_cons_of_mem r hx)

lemma splitChar_joinNL (L : List Str) (hne : L ≠ [])
    (h : ∀ x ∈ L, '\n' ∉ x) : splitChar '\n' (joinNL L) = L := by
  induction L with
  | nil => exact absurd rfl hne
  | cons x L' ih =>
    cases L' with
    | nil =>
      simpa [joinNL, joinSep] using
        splitChar_not_mem '\n' x (h x (List.mem_cons_self x []))
    | cons y L'' =>
      rw [joinNL_cons_cons,
        splitChar_append_cons '\n' x (joinNL (y :: L''))
          (h x (List.mem_cons_self x _)),
        ih (by simp) (fun z hz => h z (List.mem_cons_of_mem x hz))]

lemma gLines_subset (ls : List Str) : ∀ x ∈ gLines ls, x ∈ ls := by
  intro x hx
  rcases List.mem_flatten.mp hx with ⟨r, hr, hxr⟩
  have hr' : r ∈ runs ls := List.mem_of_mem_filter hr
  have : x ∈ (runs ls).flatten := List.mem_flatten.mpr ⟨r, hr', hxr⟩
  rwa [flatten_runs] at this

lemma normal_append_one (k : List Str) (b : Bool) (T : List Str)
    (hk : k ≠ []) (hb : ∀ x ∈ k, isQ x = b)
    (hkept : pyStrip (joinNL k) ≠ [])
    (hT : ∀ r ∈ runs T, pyStrip (joinNL r) ≠ []) :
    ∀ r ∈ runs (k ++ T), pyStrip (joinNL r) ≠ [] := by
  rcases T with _ | ⟨t0, T'⟩
  · rw [List.append_nil, runs_of_homog k b hk hb]
    intro r hr
    simp at hr
    subst hr
    exact hkept
  · by_cases hq : isQ t0 = b
    · rw [runs_append_same k b t0 T' hk hb hq]
      intro r hr
      rcases List.mem_cons.mp hr with hr | hr
      · subst hr
        rw [keptRun_iff] at hkept ⊢
        rcases hkept with ⟨x, hx, hc⟩
        exact ⟨x, List.mem_append.mpr (Or.inl hx), hc⟩
      · apply hT
        rw [runs_cons]
        exact List.mem_cons_of_mem _ hr
    · rw [runs_append_diff k b (t0 :: T') hk hb
        (Or.inr ⟨t0, T', rfl, fun he => hq he⟩)]
      intro r hr
      rcases List.mem_cons.mp hr with hr | hr
      · subst hr
        exact hkept
      · exact hT r hr

lemma normal_flatten (ks : List (List Str))
    (h : ∀ k ∈ ks, k ≠ [] ∧ (∃ b, ∀ x ∈ k, isQ x = b) ∧
      pyStrip (joinNL k) ≠ []) :
    ∀ r ∈ runs ks.flatten, pyStrip (joinNL r) ≠ [] := by
  induction ks with
  | nil =>
    rw [List.flatten_nil, runs_nil]
    intro r hr
    cases hr
  | cons k ks' ih =>
    rcases h k (List.mem_cons_self k ks') with ⟨hk, ⟨b, hb⟩, hkept⟩
    rw [List.flatten_cons]
    exact normal_append_one k b ks'.flatten hk hb hkept
      (ih (fun x hx => h x (List.mem_cons_of_mem k hx)))

lemma gLines_normal (ls : List Str) :
    ∀ r ∈ runs (gLines ls), pyStrip (joinNL r) ≠ [] := by
  apply normal_flatten
  intro k hk
  have hk1 : k ∈ runs ls := List.mem_of_mem_filter hk
  have hk2 : pyStrip (joinNL k) ≠ [] := by
    have := List.of_mem_filter hk
    simpa using this
  rcases runs_mem_ne_nil_homog ls k hk1 with ⟨hne, b, hb⟩
  exact ⟨hne, ⟨b, hb⟩, hk2⟩

lemma gLines_of_normal (ls : List Str)
    (h : ∀ r ∈ runs ls, pyStrip (joinNL r) ≠ []) : gLines ls = ls := by
  induction ls using runs.induct with
  | case1 => simp [gLines, runs_nil]
  | case2 l ls ih =>
    unfold gLines at ih ⊢
    rw [runs_cons] at h ⊢
    have hhead := h _ (List.mem_cons_self _ _)
    rw [List.filter_cons, if_pos (by simpa using hhead), List.flatten_cons,
      ih (fun r hr => h r (List.mem_cons_of_mem _ hr))]
    simp [List.takeWhile_append_dropWhile]

lemma gLines_idem (ls : List Str) : gLines (gLines ls) = gLines ls :=
  gLines_of_normal (gLines ls) (gLines_normal ls)

lemma process_eq_gLines (s : Str) :
    TextProcessor.process_text_with_quotes s =
      joinNL (gLines (splitChar '\n' s)) := by
  simp only [TextProcessor.process_text_with_quotes]
  rw [partsLoop_start, List.filter_map, joinNL_map_join]
  · unfold gLines
    congr 1
  · intro r hr
    have h1 := List.of_mem_filter hr
    simp only [Function.comp] at h1
    intro hre
    subst hre
    exact (of_decide_eq_true h1) rfl

theorem c6_process_text_with_quotes_idempotent (s : Str) :
    TextProcessor.process_text_with_quotes
        (TextProcessor.process_text_with_quotes s) =
      TextProcessor.process_text_with_quotes s := by
  have h1 := process_eq_gLines s
  by_cases hL : gLines (splitChar '\n' s) = []
  · rw [h1, hL]
    rfl
  · have hnl : ∀ x ∈ gLines (splitChar '\n' s), '\n' ∉ x := fun x hx =>
      splitChar_pieces_no_sep '\n' s x (gLines_subset _ x hx)
    rw [h1, process_eq_gLines (joinNL (gLines (splitChar '\n' s))),
      splitChar_joinNL _ hL hnl, gLines_idem]
